import Mathlib

/-!
Shallow embedding of the `vote` crate (Swarthe/vote): a four-stage electoral
procedure (Prototype, Proposal, Petition, Referendum) over a motion.

Conventions of the embedding:
* `PersonId` (a Rust `u64` roster index) is `Nat`.
* Timestamps (`chrono::DateTime<Utc>`) and durations are `Int`; the only
  operation the code performs on them is `+` and `<=`, so any linear order
  with addition is faithful. `Utc::now()` becomes an explicit `now` argument.
* Rust `Result<T, E>` is `Except E T`; `Ok` is `Except.ok`, `Err` is
  `Except.error`.
* The vote counters are `u64` in the source. Each counter always equals the
  length of the corresponding `have_voted` vector (proved below), and a Rust
  `Vec` can never hold `2 ^ 64` elements, so the `+ 1` increments never wrap
  and plain `Nat` addition is an exact model.
* Randomness (`rand::thread_rng()`) is modelled by an explicit `entropy`
  stream (`List Nat`); each draw consumes the head of the stream modulo the
  current pool size. Theorems quantify over every stream, so they hold for
  every possible behaviour of the random number generator.
-/

deriving instance DecidableEq for Except

/-- embeds `PersonId` (src/person.rs): a `u64` index into a roster. -/
abbrev PersonId := Nat

/-- embeds `struct Motion` (src/motion.rs). -/
structure Motion where
  title : String
  description : String
  developers : List PersonId
  electors : List PersonId
  deriving DecidableEq, Repr

/-- embeds `struct Prototype` (src/procedure.rs): developer-vote ledger. -/
structure Prototype where
  have_voted : List PersonId
  proposal_votes : Nat
  deriving DecidableEq, Repr

/-- embeds `struct Proposal` (src/procedure.rs): a fixed debate deadline. -/
structure Proposal where
  end_date : Int
  deriving DecidableEq, Repr

/-- embeds `struct Petition` (src/procedure.rs): sampled voters and ledger. -/
structure Petition where
  voter_ids : List PersonId
  have_voted : List PersonId
  approval_votes : Nat
  deriving DecidableEq, Repr

/-- embeds `struct Referendum` (src/procedure.rs): for/against tallies. -/
structure Referendum where
  have_voted : List PersonId
  votes_for : Nat
  votes_against : Nat
  deriving DecidableEq, Repr

/-- embeds `struct Procedure<St>` (src/procedure.rs): a motion plus exactly
one stage payload. -/
structure Procedure (St : Type) where
  motion : Motion
  stage : St
  deriving DecidableEq, Repr

/-- embeds `Procedure::<Prototype>::begin` (src/procedure.rs): empty ledger,
zero votes. -/
def Procedure.begin (motion : Motion) : Procedure Prototype :=
  { motion, stage := { have_voted := [], proposal_votes := 0 } }

/-- embeds `Procedure::<Prototype>::register_proposal_vote`
(src/procedure.rs): valid iff `person_id` is a developer of the motion and
has not already voted; on success increments the counter and pushes the id,
otherwise returns `Err(())` leaving the state untouched.  The Rust method
mutates `&mut self`; the embedding returns the result paired with the
post-state. -/
def register_proposal_vote (p : Procedure Prototype) (person_id : PersonId) :
    Except Unit Unit × Procedure Prototype :=
  if person_id ∈ p.motion.developers ∧ person_id ∉ p.stage.have_voted then
    (Except.ok (), { p with stage :=
      { have_voted := p.stage.have_voted ++ [person_id],
        proposal_votes := p.stage.proposal_votes + 1 } })
  else
    (Except.error (), p)

/-- embeds `Procedure::<Prototype>::into_proposal` (src/procedure.rs):
`half = developers.len() / 2` (integer division); succeeds iff
`proposal_votes > half`, setting the deadline to `now + prop_time`;
otherwise hands back `self` unchanged. -/
def into_proposal (p : Procedure Prototype) (now prop_time : Int) :
    Except (Procedure Prototype) (Procedure Proposal) :=
  let half := p.motion.developers.length / 2
  if half < p.stage.proposal_votes then
    Except.ok { motion := p.motion, stage := { end_date := now + prop_time } }
  else
    Except.error p

/-- embeds the sampling performed by `rand` (an external crate, so modelled
from its documented contract, which the source relies on): draw `n` elements
from `pool`, each time removing the chosen element, so choices are made
without replacement at distinct positions.  The random generator is modelled
by the `entropy` stream: draw `k` picks index `entropy.head % pool.length`.
If the pool empties early (never the case in the uses below, where
`n ≤ pool.length`) the draw stops. -/
def drawSample : List Nat → List PersonId → Nat → List PersonId
  | _, _, 0 => []
  | entropy, pool, n + 1 =>
    if h : pool.length = 0 then []
    else
      let i := entropy.headD 0 % pool.length
      pool.get ⟨i, Nat.mod_lt _ (Nat.pos_of_ne_zero h)⟩ ::
        drawSample entropy.tail (pool.eraseIdx i) n

/-- floor base-2 logarithm, by structural recursion on a fuel argument so
that the kernel can evaluate it on literals; the second argument is halved
at every step, so fuel `n` is always enough for input `n`. -/
def log2fuel : Nat → Nat → Nat
  | 0, _ => 0
  | fuel + 1, n => if n ≤ 1 then 0 else log2fuel fuel (n / 2) + 1

/-- floor base-2 logarithm of `n`. -/
def log2n (n : Nat) : Nat :=
  log2fuel n n

/-- models Rust's `usize as f32` cast, which rounds to the nearest `f32`
(24-bit significand, ties to the even significand), as the integer value of
the resulting float.  For `n` below `2 ^ 24` the cast is exact.  Above, `n`
lies in `[2 ^ k, 2 ^ (k + 1))` with `k = log2n n ≥ 24`, where consecutive
floats are `2 ^ (k - 23)` apart, so `n` is rounded to the nearest multiple
of that spacing, a tie going to the even multiple. -/
def as_f32 (n : Nat) : Nat :=
  let k := log2n n
  if k < 24 then n
  else
    let u := 2 ^ (k - 23)
    let q := n / u
    let r := n % u
    if 2 * r < u then q * u
    else if u < 2 * r then (q + 1) * u
    else if q % 2 = 0 then q * u
    else (q + 1) * u

/-- embeds `petitioner_count = electors.len() as f32 * PETITIONER_RATIO`
followed by the `as usize` cast (src/procedure.rs), with the constant ratio
0.25.  The `as f32` cast of the length rounds to nearest (`as_f32`); the
multiplication by 0.25 only lowers the exponent by two and is always exact;
the `as usize` cast truncates toward zero, which on the integral value
`as_f32 n` divided by 4 is natural-number division.  For lengths below
`2 ^ 24` the count is exactly `n / 4`; at length `2 ^ 24 + 3` the cast
rounds up to `2 ^ 24 + 4` and the code draws `4194305` voters, not
`floor((2 ^ 24 + 3) / 4) = 4194304`. -/
def petitioner_count (elector_len : Nat) : Nat :=
  as_f32 elector_len / 4

/-- embeds `Procedure::<Proposal>::into_petition` (src/procedure.rs):
succeeds iff `end_date <= now`; on success draws
`petitioner_count` electors (via `SliceRandom::choose_multiple`, modelled by
`drawSample`) as `voter_ids` and starts an empty approval ledger; otherwise
hands back `self` unchanged. -/
def into_petition (p : Procedure Proposal) (now : Int) (entropy : List Nat) :
    Except (Procedure Proposal) (Procedure Petition) :=
  if p.stage.end_date ≤ now then
    let voter_ids := drawSample entropy p.motion.electors
      (petitioner_count p.motion.electors.length)
    Except.ok { motion := p.motion, stage :=
      { voter_ids, have_voted := [], approval_votes := 0 } }
  else
    Except.error p

/-- embeds `Procedure::<Petition>::register_approval_vote`
(src/procedure.rs).  Note that the source checks membership in
`self.motion.electors`, the full elector set, not in the sampled
`self.stage.voter_ids`. -/
def register_approval_vote (p : Procedure Petition) (person_id : PersonId) :
    Except Unit Unit × Procedure Petition :=
  if person_id ∈ p.motion.electors ∧ person_id ∉ p.stage.have_voted then
    (Except.ok (), { p with stage :=
      { p.stage with
        have_voted := p.stage.have_voted ++ [person_id],
        approval_votes := p.stage.approval_votes + 1 } })
  else
    (Except.error (), p)

/-- embeds `Procedure::<Petition>::into_referendum` (src/procedure.rs):
`half = voter_ids.len() / 2`; succeeds iff `approval_votes > half`, starting
empty referendum tallies; otherwise hands back `self` unchanged. -/
def into_referendum (p : Procedure Petition) :
    Except (Procedure Petition) (Procedure Referendum) :=
  let half := p.stage.voter_ids.length / 2
  if half < p.stage.approval_votes then
    Except.ok { motion := p.motion, stage :=
      { have_voted := [], votes_for := 0, votes_against := 0 } }
  else
    Except.error p

/-- embeds `Procedure::<Referendum>::register_vote_for` (src/procedure.rs):
valid iff `person_id` is an elector and has not voted on either side; on
success increments `votes_for` and pushes the id. -/
def register_vote_for (p : Procedure Referendum) (person_id : PersonId) :
    Except Unit Unit × Procedure Referendum :=
  if person_id ∈ p.motion.electors ∧ person_id ∉ p.stage.have_voted then
    (Except.ok (), { p with stage :=
      { p.stage with
        have_voted := p.stage.have_voted ++ [person_id],
        votes_for := p.stage.votes_for + 1 } })
  else
    (Except.error (), p)

/-- embeds `Procedure::<Referendum>::register_vote_against`
(src/procedure.rs): same validity check, increments `votes_against`. -/
def register_vote_against (p : Procedure Referendum) (person_id : PersonId) :
    Except Unit Unit × Procedure Referendum :=
  if person_id ∈ p.motion.electors ∧ person_id ∉ p.stage.have_voted then
    (Except.ok (), { p with stage :=
      { p.stage with
        have_voted := p.stage.have_voted ++ [person_id],
        votes_against := p.stage.votes_against + 1 } })
  else
    (Except.error (), p)

/-- embeds `Procedure::<Referendum>::pass` (src/procedure.rs): `Ok(())` iff
`votes_for > votes_against`, else hands back `self` unchanged. -/
def Procedure.pass (p : Procedure Referendum) :
    Except (Procedure Referendum) Unit :=
  if p.stage.votes_against < p.stage.votes_for then
    Except.ok ()
  else
    Except.error p

/-- embeds `PersonList::rand_choices` (src/person.rs): `n` unique IDs of
people in the list.  The underlying `rand::seq::index::sample` returns `n`
distinct indices in `0 .. len` and, per its documented contract (echoed by
the source comment ⟦panics if n > the number of people in the list⟧),
panics when `n` exceeds the population.  The panic — an abort, not a value
returned to the caller — is modelled as `none`. -/
def rand_choices (entropy : List Nat) (population n : Nat) :
    Option (List PersonId) :=
  if n ≤ population then
    some (drawSample entropy (List.range population) n)
  else
    none

/-- a whole Prototype voting session: fold `register_proposal_vote` over a
list of attempted voter ids, keeping the post-state each time. -/
def runProposalVotes (p : Procedure Prototype) : List PersonId → Procedure Prototype
  | [] => p
  | id :: ids => runProposalVotes (register_proposal_vote p id).2 ids

/-- a whole Referendum voting session: fold the two registration calls over
a list of attempts, `true` meaning a vote for and `false` a vote against. -/
def runReferendumVotes (p : Procedure Referendum) :
    List (PersonId × Bool) → Procedure Referendum
  | [] => p
  | (id, side) :: rest =>
    runReferendumVotes
      (if side then (register_vote_for p id).2
       else (register_vote_against p id).2) rest

/-- the petition sample size exactly as the spec words it: nearest rounding
of `elector_count * 0.25` (written over the rationals, then rounded to the
nearest natural, halves up).  Stated only to compare with the source's
`petitioner_count`. -/
def petitionSampleSizeSpec (elector_len : Nat) : Nat :=
  (elector_len + 2) / 4

/-! Helper lemmas about the sampling procedure. -/

theorem drawSample_length : ∀ (n : Nat) (entropy pool : List Nat),
    n ≤ pool.length → (drawSample entropy pool n).length = n := by
  intro n
  induction n with
  | zero => intro entropy pool _; rfl
  | succ k ih =>
    intro entropy pool hle
    have h0 : pool.length ≠ 0 := by omega
    have hi : entropy.headD 0 % pool.length < pool.length :=
      Nat.mod_lt _ (Nat.pos_of_ne_zero h0)
    have herase := List.length_eraseIdx_add_one hi
    simp only [drawSample, dif_neg h0, List.length_cons]
    exact congrArg (· + 1) (ih _ _ (by omega))

theorem drawSample_subset : ∀ (n : Nat) (entropy pool : List Nat) (x : Nat),
    x ∈ drawSample entropy pool n → x ∈ pool := by
  intro n
  induction n with
  | zero => intro _ _ _ hx; simp [drawSample] at hx
  | succ k ih =>
    intro entropy pool x hx
    by_cases h0 : pool.length = 0
    · simp only [drawSample, dif_pos h0] at hx
      simp at hx
    · simp only [drawSample, dif_neg h0, List.mem_cons] at hx
      rcases hx with rfl | hx
      · exact List.get_mem _ _ _
      · exact (List.eraseIdx_sublist _ _).mem (ih _ _ _ hx)

theorem drawSample_nodup : ∀ (n : Nat) (entropy pool : List Nat),
    pool.Nodup → (drawSample entropy pool n).Nodup := by
  intro n
  induction n with
  | zero => intro _ _ _; simp [drawSample]
  | succ k ih =>
    intro entropy pool hnd
    by_cases h0 : pool.length = 0
    · simp only [drawSample, dif_pos h0]
      exact List.nodup_nil
    · have hi : entropy.headD 0 % pool.length < pool.length :=
        Nat.mod_lt _ (Nat.pos_of_ne_zero h0)
      simp only [drawSample, dif_neg h0, List.nodup_cons]
      refine ⟨fun hmem => ?_, ih _ _ ((List.eraseIdx_sublist _ _).nodup hnd)⟩
      have h1 : pool.get ⟨entropy.headD 0 % pool.length, hi⟩ ∈
          pool.eraseIdx (entropy.headD 0 % pool.length) :=
        drawSample_subset _ _ _ _ hmem
      rw [← hnd.erase_getElem _ hi] at h1
      exact hnd.not_mem_erase h1

theorem log2fuel_pow_le : ∀ (fuel n : Nat), n ≤ fuel → 1 ≤ n →
    2 ^ log2fuel fuel n ≤ n := by
  intro fuel
  induction fuel with
  | zero => intro n h1 h2; omega
  | succ f ih =>
    intro n hle hpos
    by_cases h1 : n ≤ 1
    · simp only [log2fuel, if_pos h1, pow_zero]
      exact hpos
    · have hhalf := ih (n / 2) (by omega) (by omega)
      simp only [log2fuel, if_neg h1]
      rw [pow_succ]
      omega

theorem as_f32_le (n : Nat) : as_f32 n ≤ 2 * n := by
  simp only [as_f32]
  by_cases hk : log2n n < 24
  · rw [if_pos hk]
    omega
  · rw [if_neg hk]
    have hn : 1 ≤ n := by
      by_contra h
      have hz : n = 0 := by omega
      subst hz
      simp [log2n, log2fuel] at hk
    have hpow : 2 ^ log2n n ≤ n := log2fuel_pow_le n n (Nat.le_refl n) hn
    have hu : 2 ^ (log2n n - 23) ≤ n :=
      le_trans (Nat.pow_le_pow_right (by omega) (Nat.sub_le _ _)) hpow
    have hq : n / 2 ^ (log2n n - 23) * 2 ^ (log2n n - 23) ≤ n :=
      Nat.div_mul_le_self _ _
    have hs : (n / 2 ^ (log2n n - 23) + 1) * 2 ^ (log2n n - 23) ≤ 2 * n := by
      rw [Nat.succ_mul]
      omega
    split
    · omega
    · split
      · exact hs
      · split
        · omega
        · exact hs

theorem petitioner_count_le (n : Nat) : petitioner_count n ≤ n := by
  have h := as_f32_le n
  unfold petitioner_count
  omega

/-! Concrete fixtures used by counterexamples and witnesses. -/

/-- a concrete motion with 7 electors. -/
def motionSeven : Motion :=
  { title := "t", description := "d", developers := [0],
    electors := [0, 1, 2, 3, 4, 5, 6] }

/-- a Proposal procedure over `motionSeven` whose debate deadline is time 0. -/
def proposalSeven : Procedure Proposal :=
  { motion := motionSeven, stage := { end_date := 0 } }

/-- a motion whose elector list repeats the same ID eight times; the
source builds motions with no validation, so such a list is accepted. -/
def motionDupElectors : Motion :=
  { title := "t", description := "d", developers := [5],
    electors := [5, 5, 5, 5, 5, 5, 5, 5] }

/-- a Proposal procedure over `motionDupElectors`, deadline time 0. -/
def proposalDupElectors : Procedure Proposal :=
  { motion := motionDupElectors, stage := { end_date := 0 } }

/-- C2 counterexamples.  First: the claim says the petition sample size is
the NEAREST ROUNDING of `elector_count * 0.25`; with 7 electors that would
be `round(1.75) = 2`, but the code truncates the `f32` product with an
`as usize` cast and draws only `trunc(1.75) = 1` voter.  Second: the claim
says `voter_ids` holds no duplicates, but sampling without replacement is
by position, so the 8-fold-repeated elector 5 is drawn twice and
`voter_ids = [5, 5]`. -/
theorem C2_sample_size_rounding_counterexample :
    ((into_petition proposalSeven 0 [0]).toOption.map
        (fun q => q.stage.voter_ids.length) = some 1 ∧
      petitionSampleSizeSpec proposalSeven.motion.electors.length = 2) ∧
    ((into_petition proposalDupElectors 0 [0, 0]).toOption.map
        (fun q => q.stage.voter_ids) = some [5, 5] ∧
      ¬ ([5, 5] : List PersonId).Nodup) := by
  decide

/-- C2 (amended): on a successful Proposal-to-Petition advance the sample
size equals the TRUNCATION of the `f32` product `elector_count * 0.25`
(the source's `petitioner_count`, where the elector count is first rounded
to `f32` precision; below `2 ^ 24` electors this is `elector_count / 4`),
every sampled ID comes from the motion's elector set, and the sample is
drawn at pairwise-distinct positions, hence has no duplicates whenever the
elector list has none (a duplicated elector entry can be drawn twice). -/
theorem C2_petition_sample_size_and_distinct (p : Procedure Proposal)
    (now : Int) (entropy : List Nat) (h : p.stage.end_date ≤ now) :
    (into_petition p now entropy).toOption.map
        (fun q => q.stage.voter_ids.length) =
      some (petitioner_count p.motion.electors.length) ∧
    (∀ q, into_petition p now entropy = Except.ok q →
      (∀ x ∈ q.stage.voter_ids, x ∈ p.motion.electors) ∧
      (p.motion.electors.Nodup → q.stage.voter_ids.Nodup)) := by
  have hlen : petitioner_count p.motion.electors.length ≤
      p.motion.electors.length := petitioner_count_le _
  constructor
  · simp only [into_petition, if_pos h, Except.toOption, Option.map_some]
    exact congrArg some (drawSample_length _ _ _ hlen)
  · intro q hq
    simp only [into_petition, if_pos h, Except.ok.injEq] at hq
    subst hq
    exact ⟨fun x hx => drawSample_subset _ _ _ _ hx,
           fun hnd => drawSample_nodup _ _ _ hnd⟩

/-- C2 witness: the amended theorem applied to the concrete 7-elector
proposal at time 0. -/
theorem C2_petition_sample_witness :
    (into_petition proposalSeven 0 [0]).toOption.map
        (fun q => q.stage.voter_ids.length) =
      some (petitioner_count proposalSeven.motion.electors.length) :=
  (C2_petition_sample_size_and_distinct proposalSeven 0 [0] (by decide)).1

/-- C3: the claim says an oversized sample request fails by RETURNING AN
ERROR AS A RESULT VALUE.  The source's `rand_choices` has return type
`Vec<PersonId>` — there is no error channel — and, as its own doc comment
states, it panics when `n` exceeds the population (here `n = 3` against a
population of 2; the panic is the `none` of the model). -/
theorem C3_oversized_sample_panics :
    rand_choices [] 2 3 = none := by
  decide

/-- C3 (amended): `rand_choices` panics (modelled as `none`) whenever `n`
exceeds the population size, and for `n` at most the population size it
returns `n` pairwise-distinct IDs, each a valid index into the roster. -/
theorem C3_rand_choices_distinct_valid (entropy : List Nat)
    (population n : Nat) :
    (population < n → rand_choices entropy population n = none) ∧
    (n ≤ population →
      ∃ ids, rand_choices entropy population n = some ids ∧
        ids.length = n ∧ ids.Nodup ∧ ∀ x ∈ ids, x < population) := by
  constructor
  · intro hlt
    simp [rand_choices, Nat.not_le.mpr hlt]
  · intro hle
    refine ⟨drawSample entropy (List.range population) n, ?_, ?_, ?_, ?_⟩
    · simp [rand_choices, hle]
    · exact drawSample_length _ _ _ (by simpa using hle)
    · exact drawSample_nodup _ _ _ (List.nodup_range population)
    · intro x hx
      exact List.mem_range.mp (drawSample_subset _ _ _ _ hx)

/-- C3 witness: the amended theorem applied at population 5, sample size 9. -/
theorem C3_rand_choices_witness :
    rand_choices [] 5 9 = none :=
  (C3_rand_choices_distinct_valid [] 5 9).1 (by decide)

/-! Prototype-stage ledger invariant and its preservation. -/

/-- the Prototype ledger invariant: every voter recorded so far is a
developer of the motion, no voter is recorded twice, and the counter equals
the ledger length. -/
def ProtoInv (m : Motion) (s : Prototype) : Prop :=
  (∀ x ∈ s.have_voted, x ∈ m.developers) ∧ s.have_voted.Nodup ∧
    s.proposal_votes = s.have_voted.length

theorem register_proposal_vote_motion (p : Procedure Prototype)
    (id : PersonId) : (register_proposal_vote p id).2.motion = p.motion := by
  unfold register_proposal_vote
  split <;> rfl

theorem ProtoInv_register (p : Procedure Prototype) (id : PersonId)
    (h : ProtoInv p.motion p.stage) :
    ProtoInv p.motion (register_proposal_vote p id).2.stage := by
  obtain ⟨hmem, hnd, hcnt⟩ := h
  unfold register_proposal_vote
  split
  case isTrue hv =>
    refine ⟨?_, ?_, ?_⟩
    · intro x hx
      simp only [List.mem_append, List.mem_singleton] at hx
      rcases hx with hx | rfl
      · exact hmem x hx
      · exact hv.1
    · rw [List.nodup_append]
      refine ⟨hnd, List.nodup_singleton _, fun a ha hb => ?_⟩
      rw [List.mem_singleton] at hb
      subst hb
      exact hv.2 ha
    · simp [hcnt]
  case isFalse _ => exact ⟨hmem, hnd, hcnt⟩

theorem runProposalVotes_motion (ids : List PersonId) :
    ∀ p : Procedure Prototype, (runProposalVotes p ids).motion = p.motion := by
  induction ids with
  | nil => intro p; rfl
  | cons id rest ih =>
    intro p
    simp only [runProposalVotes]
    rw [ih, register_proposal_vote_motion]

theorem ProtoInv_run (ids : List PersonId) :
    ∀ p : Procedure Prototype, ProtoInv p.motion p.stage →
      ProtoInv p.motion (runProposalVotes p ids).stage := by
  induction ids with
  | nil => intro p h; exact h
  | cons id rest ih =>
    intro p h
    have hm := register_proposal_vote_motion p id
    have h2 : ProtoInv (register_proposal_vote p id).2.motion
        (register_proposal_vote p id).2.stage := by
      rw [hm]
      exact ProtoInv_register p id h
    have h3 := ih _ h2
    rw [hm] at h3
    simpa only [runProposalVotes] using h3

/-- C9: any Prototype procedure reachable from `begin(motion)` by a
sequence of `register_proposal_vote` calls has a ledger whose entries are
all developers of the motion and pairwise distinct, with the vote counter
equal to the ledger length. -/
theorem C9_prototype_ledger_invariant (m : Motion) (ids : List PersonId) :
    (∀ x ∈ (runProposalVotes (Procedure.begin m) ids).stage.have_voted,
        x ∈ m.developers) ∧
    (runProposalVotes (Procedure.begin m) ids).stage.have_voted.Nodup ∧
    (runProposalVotes (Procedure.begin m) ids).stage.proposal_votes =
      (runProposalVotes (Procedure.begin m) ids).stage.have_voted.length := by
  have h0 : ProtoInv (Procedure.begin m).motion (Procedure.begin m).stage :=
    ⟨fun x hx => absurd hx (List.not_mem_nil x), List.nodup_nil, rfl⟩
  exact ProtoInv_run ids (Procedure.begin m) h0

/-- C9 witness: the invariant instantiated on a concrete session where
developer 0 votes, outsider 9 is refused, and 0 tries to vote again. -/
theorem C9_prototype_ledger_witness :
    (runProposalVotes (Procedure.begin motionSeven)
        [0, 9, 0]).stage.proposal_votes =
      (runProposalVotes (Procedure.begin motionSeven)
        [0, 9, 0]).stage.have_voted.length :=
  (C9_prototype_ledger_invariant motionSeven [0, 9, 0]).2.2

/-- C4: advancing from Prototype succeeds iff the votes cast strictly
exceed `floor(d / 2)`; on failure the identical procedure is handed back;
and a motion with no developers can never advance from a reachable state. -/
theorem C4_prototype_advance_majority (p : Procedure Prototype)
    (now prop_time : Int) :
    ((∃ q, into_proposal p now prop_time = Except.ok q) ↔
      p.motion.developers.length / 2 < p.stage.proposal_votes) ∧
    (p.stage.proposal_votes ≤ p.motion.developers.length / 2 →
      into_proposal p now prop_time = Except.error p) ∧
    (∀ (m : Motion) (ids : List PersonId), m.developers = [] →
      into_proposal (runProposalVotes (Procedure.begin m) ids) now prop_time =
        Except.error (runProposalVotes (Procedure.begin m) ids)) := by
  refine ⟨⟨?_, ?_⟩, ?_, ?_⟩
  · rintro ⟨q, hq⟩
    by_contra hc
    simp [into_proposal, Nat.not_lt.mp hc, Nat.not_lt.mpr (Nat.not_lt.mp hc)]
      at hq
  · intro hlt
    refine ⟨{ motion := p.motion, stage := { end_date := now + prop_time } },
      ?_⟩
    simp [into_proposal, if_pos hlt]
  · intro hle
    simp [into_proposal, Nat.not_lt.mpr hle]
  · intro m ids hdev
    obtain ⟨hmem, _, hcnt⟩ := ProtoInv_run ids (Procedure.begin m)
      ⟨fun x hx => absurd hx (List.not_mem_nil x), List.nodup_nil, rfl⟩
    have hled : (runProposalVotes (Procedure.begin m) ids).stage.have_voted
        = [] := by
      cases hl : (runProposalVotes (Procedure.begin m) ids).stage.have_voted
        with
      | nil => rfl
      | cons a t =>
        have ha : a ∈ m.developers :=
          hmem a (by rw [hl]; exact List.mem_cons_self a t)
        rw [hdev] at ha
        exact absurd ha (List.not_mem_nil a)
    have hzero : (runProposalVotes (Procedure.begin m) ids).stage.proposal_votes
        = 0 := by
      rw [hcnt, hled]
      rfl
    simp [into_proposal, hzero]

/-- a Prototype procedure with two developers and a single vote: the tie
case `1 = floor(2 / 2)`, which must not advance. -/
def prototypeTied : Procedure Prototype :=
  { motion := { title := "t", description := "d", developers := [0, 1],
                electors := [0, 1, 2] },
    stage := { have_voted := [0], proposal_votes := 1 } }

/-- C4 witness: with 2 developers and 1 vote the advance is refused and the
procedure handed back unchanged. -/
theorem C4_prototype_advance_witness :
    into_proposal prototypeTied 0 5 = Except.error prototypeTied :=
  (C4_prototype_advance_majority prototypeTied 0 5).2.1 (by decide)

/-- C5: advancing from Proposal succeeds iff the current time has reached
the stored deadline; strictly before the deadline the advance fails and the
identical Proposal procedure is handed back. -/
theorem C5_proposal_advance_deadline (p : Procedure Proposal) (now : Int)
    (entropy : List Nat) :
    ((∃ q, into_petition p now entropy = Except.ok q) ↔
      p.stage.end_date ≤ now) ∧
    (now < p.stage.end_date →
      into_petition p now entropy = Except.error p) := by
  refine ⟨⟨?_, ?_⟩, ?_⟩
  · rintro ⟨q, hq⟩
    by_contra hc
    simp [into_petition, hc] at hq
  · intro h
    refine ⟨{ motion := p.motion, stage :=
      { voter_ids := drawSample entropy p.motion.electors
          (petitioner_count p.motion.electors.length),
        have_voted := [], approval_votes := 0 } }, ?_⟩
    simp [into_petition, if_pos h]
  · intro h
    simp [into_petition, not_le.mpr h]

/-- a Proposal procedure whose deadline, time 10, is still in the future at
time 0. -/
def proposalPending : Procedure Proposal :=
  { motion := motionSeven, stage := { end_date := 10 } }

/-- C5 witness: before the deadline the advance is refused and the
procedure handed back unchanged. -/
theorem C5_proposal_advance_witness :
    into_petition proposalPending 0 [] = Except.error proposalPending :=
  (C5_proposal_advance_deadline proposalPending 0 []).2 (by decide)

/-- C6: the terminal decision passes the motion iff `votes_for` strictly
exceeds `votes_against`; every tie or deficit is a rejection that hands the
procedure back unchanged. -/
theorem C6_referendum_decision (p : Procedure Referendum) :
    (Procedure.pass p = Except.ok () ↔
      p.stage.votes_against < p.stage.votes_for) ∧
    (p.stage.votes_for ≤ p.stage.votes_against →
      Procedure.pass p = Except.error p) := by
  refine ⟨⟨?_, ?_⟩, ?_⟩
  · intro h
    by_contra hc
    simp [Procedure.pass, Nat.not_lt.mpr (Nat.not_lt.mp hc)] at h
  · intro h
    simp [Procedure.pass, if_pos h]
  · intro h
    simp [Procedure.pass, Nat.not_lt.mpr h]

/-- a Referendum procedure with a 3-to-3 tie. -/
def referendumTied : Procedure Referendum :=
  { motion := motionSeven,
    stage := { have_voted := [0, 1, 2, 3, 4, 5], votes_for := 3,
               votes_against := 3 } }

/-- C6 witness: the 3-to-3 tie is rejected, handing the procedure back. -/
theorem C6_referendum_decision_witness :
    Procedure.pass referendumTied = Except.error referendumTied :=
  (C6_referendum_decision referendumTied).2 (by decide)

/-! Referendum-stage helper lemmas. -/

theorem register_vote_for_already_voted (p : Procedure Referendum)
    (x : PersonId) (h : x ∈ p.stage.have_voted) :
    (register_vote_for p x).1 = Except.error () ∧
      (register_vote_for p x).2 = p := by
  unfold register_vote_for
  rw [if_neg (fun hc => hc.2 h)]
  exact ⟨rfl, rfl⟩

theorem register_vote_against_already_voted (p : Procedure Referendum)
    (x : PersonId) (h : x ∈ p.stage.have_voted) :
    (register_vote_against p x).1 = Except.error () ∧
      (register_vote_against p x).2 = p := by
  unfold register_vote_against
  rw [if_neg (fun hc => hc.2 h)]
  exact ⟨rfl, rfl⟩

theorem register_vote_for_ledger_mono (p : Procedure Referendum)
    (z y : PersonId) (h : y ∈ p.stage.have_voted) :
    y ∈ (register_vote_for p z).2.stage.have_voted := by
  unfold register_vote_for
  split
  · simp only [List.mem_append]
    exact Or.inl h
  · exact h

theorem register_vote_against_ledger_mono (p : Procedure Referendum)
    (z y : PersonId) (h : y ∈ p.stage.have_voted) :
    y ∈ (register_vote_against p z).2.stage.have_voted := by
  unfold register_vote_against
  split
  · simp only [List.mem_append]
    exact Or.inl h
  · exact h

theorem runReferendumVotes_ledger_mono (attempts : List (PersonId × Bool)) :
    ∀ (p : Procedure Referendum) (y : PersonId), y ∈ p.stage.have_voted →
      y ∈ (runReferendumVotes p attempts).stage.have_voted := by
  induction attempts with
  | nil => intro p y h; exact h
  | cons a rest ih =>
    intro p y h
    obtain ⟨id, side⟩ := a
    simp only [runReferendumVotes]
    cases side
    · exact ih _ y (register_vote_against_ledger_mono p id y h)
    · exact ih _ y (register_vote_for_ledger_mono p id y h)

/-- C7: a Referendum vote registration (for or against) succeeds iff the
voter is an elector who has not yet voted on either side; success
increments exactly its own counter; failure leaves the procedure unchanged;
and once a person has voted successfully, every later attempt by the same
person — on either side, after any further voting activity — fails and
leaves the procedure unchanged. -/
theorem C7_referendum_one_vote_per_person (p : Procedure Referendum)
    (x : PersonId) :
    ((register_vote_for p x).1 = Except.ok () ↔
      x ∈ p.motion.electors ∧ x ∉ p.stage.have_voted) ∧
    ((register_vote_against p x).1 = Except.ok () ↔
      x ∈ p.motion.electors ∧ x ∉ p.stage.have_voted) ∧
    (x ∈ p.motion.electors → x ∉ p.stage.have_voted →
      (register_vote_for p x).2.stage.votes_for = p.stage.votes_for + 1 ∧
      (register_vote_for p x).2.stage.votes_against =
        p.stage.votes_against ∧
      (register_vote_against p x).2.stage.votes_against =
        p.stage.votes_against + 1 ∧
      (register_vote_against p x).2.stage.votes_for = p.stage.votes_for) ∧
    ((register_vote_for p x).1 = Except.error () →
      (register_vote_for p x).2 = p) ∧
    ((register_vote_against p x).1 = Except.error () →
      (register_vote_against p x).2 = p) ∧
    (∀ attempts : List (PersonId × Bool),
      ((register_vote_for p x).1 = Except.ok () →
        (register_vote_for
          (runReferendumVotes (register_vote_for p x).2 attempts) x).1 =
            Except.error () ∧
        (register_vote_for
          (runReferendumVotes (register_vote_for p x).2 attempts) x).2 =
            runReferendumVotes (register_vote_for p x).2 attempts ∧
        (register_vote_against
          (runReferendumVotes (register_vote_for p x).2 attempts) x).1 =
            Except.error () ∧
        (register_vote_against
          (runReferendumVotes (register_vote_for p x).2 attempts) x).2 =
            runReferendumVotes (register_vote_for p x).2 attempts) ∧
      ((register_vote_against p x).1 = Except.ok () →
        (register_vote_for
          (runReferendumVotes (register_vote_against p x).2 attempts) x).1 =
            Except.error () ∧
        (register_vote_for
          (runReferendumVotes (register_vote_against p x).2 attempts) x).2 =
            runReferendumVotes (register_vote_against p x).2 attempts ∧
        (register_vote_against
          (runReferendumVotes (register_vote_against p x).2 attempts) x).1 =
            Except.error () ∧
        (register_vote_against
          (runReferendumVotes (register_vote_against p x).2 attempts) x).2 =
            runReferendumVotes (register_vote_against p x).2 attempts)) := by
  refine ⟨?_, ?_, ?_, ?_, ?_, ?_⟩
  · by_cases hc : x ∈ p.motion.electors ∧ x ∉ p.stage.have_voted
    · simp [register_vote_for, if_pos hc, hc]
    · simp [register_vote_for, if_neg hc, hc]
  · by_cases hc : x ∈ p.motion.electors ∧ x ∉ p.stage.have_voted
    · simp [register_vote_against, if_pos hc, hc]
    · simp [register_vote_against, if_neg hc, hc]
  · intro h1 h2
    simp [register_vote_for, register_vote_against, if_pos (And.intro h1 h2)]
  · intro h
    by_cases hc : x ∈ p.motion.electors ∧ x ∉ p.stage.have_voted
    · simp [register_vote_for, if_pos hc] at h
    · simp [register_vote_for, if_neg hc]
  · intro h
    by_cases hc : x ∈ p.motion.electors ∧ x ∉ p.stage.have_voted
    · simp [register_vote_against, if_pos hc] at h
    · simp [register_vote_against, if_neg hc]
  · intro attempts
    constructor
    · intro hok
      by_cases hc : x ∈ p.motion.electors ∧ x ∉ p.stage.have_voted
      · have hpush : x ∈ (register_vote_for p x).2.stage.have_voted := by
          simp [register_vote_for, if_pos hc]
        have hmem := runReferendumVotes_ledger_mono attempts _ x hpush
        exact ⟨(register_vote_for_already_voted _ x hmem).1,
               (register_vote_for_already_voted _ x hmem).2,
               (register_vote_against_already_voted _ x hmem).1,
               (register_vote_against_already_voted _ x hmem).2⟩
      · simp [register_vote_for, if_neg hc] at hok
    · intro hok
      by_cases hc : x ∈ p.motion.electors ∧ x ∉ p.stage.have_voted
      · have hpush : x ∈ (register_vote_against p x).2.stage.have_voted := by
          simp [register_vote_against, if_pos hc]
        have hmem := runReferendumVotes_ledger_mono attempts _ x hpush
        exact ⟨(register_vote_for_already_voted _ x hmem).1,
               (register_vote_for_already_voted _ x hmem).2,
               (register_vote_against_already_voted _ x hmem).1,
               (register_vote_against_already_voted _ x hmem).2⟩
      · simp [register_vote_against, if_neg hc] at hok

/-- a fresh Referendum procedure over the 7-elector motion. -/
def referendumFresh : Procedure Referendum :=
  { motion := motionSeven,
    stage := { have_voted := [], votes_for := 0, votes_against := 0 } }

/-- C7 witness: after elector 1 votes for, a second attempt by person 1 on
either side is refused and changes nothing. -/
theorem C7_referendum_one_vote_witness :
    (register_vote_for
      (runReferendumVotes (register_vote_for referendumFresh 1).2 []) 1).1 =
        Except.error () ∧
    (register_vote_for
      (runReferendumVotes (register_vote_for referendumFresh 1).2 []) 1).2 =
        runReferendumVotes (register_vote_for referendumFresh 1).2 [] ∧
    (register_vote_against
      (runReferendumVotes (register_vote_for referendumFresh 1).2 []) 1).1 =
        Except.error () ∧
    (register_vote_against
      (runReferendumVotes (register_vote_for referendumFresh 1).2 []) 1).2 =
        runReferendumVotes (register_vote_for referendumFresh 1).2 [] :=
  ((C7_referendum_one_vote_per_person referendumFresh 1).2.2.2.2.2 []).1
    (by decide)

/-! Referendum-stage ledger invariant and its preservation. -/

/-- the Referendum ledger invariant: the two counters sum to the ledger
length, the ledger has no duplicates, and every recorded voter is an
elector. -/
def RefInv (electors : List PersonId) (s : Referendum) : Prop :=
  s.votes_for + s.votes_against = s.have_voted.length ∧
    s.have_voted.Nodup ∧ ∀ x ∈ s.have_voted, x ∈ electors

theorem register_vote_for_motion (p : Procedure Referendum)
    (id : PersonId) : (register_vote_for p id).2.motion = p.motion := by
  unfold register_vote_for
  split <;> rfl

theorem register_vote_against_motion (p : Procedure Referendum)
    (id : PersonId) : (register_vote_against p id).2.motion = p.motion := by
  unfold register_vote_against
  split <;> rfl

theorem RefInv_register_for (p : Procedure Referendum) (id : PersonId)
    (h : RefInv p.motion.electors p.stage) :
    RefInv p.motion.electors (register_vote_for p id).2.stage := by
  obtain ⟨hcnt, hnd, hmem⟩ := h
  unfold register_vote_for
  split
  case isTrue hv =>
    refine ⟨by simp only [List.length_append, List.length_singleton]; omega,
      ?_, ?_⟩
    · rw [List.nodup_append]
      refine ⟨hnd, List.nodup_singleton _, fun a ha hb => ?_⟩
      rw [List.mem_singleton] at hb
      subst hb
      exact hv.2 ha
    · intro x hx
      simp only [List.mem_append, List.mem_singleton] at hx
      rcases hx with hx | rfl
      · exact hmem x hx
      · exact hv.1
  case isFalse _ => exact ⟨hcnt, hnd, hmem⟩

theorem RefInv_register_against (p : Procedure Referendum) (id : PersonId)
    (h : RefInv p.motion.electors p.stage) :
    RefInv p.motion.electors (register_vote_against p id).2.stage := by
  obtain ⟨hcnt, hnd, hmem⟩ := h
  unfold register_vote_against
  split
  case isTrue hv =>
    refine ⟨by simp only [List.length_append, List.length_singleton]; omega,
      ?_, ?_⟩
    · rw [List.nodup_append]
      refine ⟨hnd, List.nodup_singleton _, fun a ha hb => ?_⟩
      rw [List.mem_singleton] at hb
      subst hb
      exact hv.2 ha
    · intro x hx
      simp only [List.mem_append, List.mem_singleton] at hx
      rcases hx with hx | rfl
      · exact hmem x hx
      · exact hv.1
  case isFalse _ => exact ⟨hcnt, hnd, hmem⟩

theorem RefInv_run (attempts : List (PersonId × Bool)) :
    ∀ p : Procedure Referendum, RefInv p.motion.electors p.stage →
      RefInv p.motion.electors (runReferendumVotes p attempts).stage := by
  induction attempts with
  | nil => intro p h; exact h
  | cons a rest ih =>
    intro p h
    obtain ⟨id, side⟩ := a
    simp only [runReferendumVotes]
    cases side
    · have hm := register_vote_against_motion p id
      have h2 : RefInv (register_vote_against p id).2.motion.electors
          (register_vote_against p id).2.stage := by
        rw [hm]
        exact RefInv_register_against p id h
      have h3 := ih _ h2
      rwa [hm] at h3
    · have hm := register_vote_for_motion p id
      have h2 : RefInv (register_vote_for p id).2.motion.electors
          (register_vote_for p id).2.stage := by
        rw [hm]
        exact RefInv_register_for p id h
      have h3 := ih _ h2
      rwa [hm] at h3

/-- C10: any Referendum procedure reachable from a successful
Petition-to-Referendum advance by a sequence of `register_vote_for` and
`register_vote_against` calls satisfies: the two counters sum to the ledger
length, the ledger has no duplicates, and every ledger entry is in the
motion's elector set. -/
theorem C10_referendum_ledger_invariant (pp : Procedure Petition)
    (q : Procedure Referendum) (h : into_referendum pp = Except.ok q)
    (attempts : List (PersonId × Bool)) :
    (runReferendumVotes q attempts).stage.votes_for +
        (runReferendumVotes q attempts).stage.votes_against =
      (runReferendumVotes q attempts).stage.have_voted.length ∧
    (runReferendumVotes q attempts).stage.have_voted.Nodup ∧
    ∀ x ∈ (runReferendumVotes q attempts).stage.have_voted,
      x ∈ pp.motion.electors := by
  have hq : q = { motion := pp.motion, stage :=
      { have_voted := [], votes_for := 0, votes_against := 0 } } := by
    unfold into_referendum at h
    dsimp only at h
    split at h
    · exact ((Except.ok.injEq _ _).mp h).symm
    · simp at h
  subst hq
  exact RefInv_run attempts _
    ⟨rfl, List.nodup_nil, fun x hx => absurd hx (List.not_mem_nil x)⟩

/-- a Petition procedure over the 7-elector motion where 2 of the 3
sampled petitioners have approved, enough to advance. -/
def petitionApproved : Procedure Petition :=
  { motion := motionSeven,
    stage := { voter_ids := [0, 1, 2], have_voted := [0, 1],
               approval_votes := 2 } }

/-- C10 witness: the invariant instantiated after the advance from
`petitionApproved` and a session where elector 0 votes for and outsider 9
is refused. -/
theorem C10_referendum_ledger_witness :
    (runReferendumVotes referendumFresh [(0, true), (9, false)]).stage.votes_for +
        (runReferendumVotes referendumFresh
          [(0, true), (9, false)]).stage.votes_against =
      (runReferendumVotes referendumFresh
        [(0, true), (9, false)]).stage.have_voted.length :=
  (C10_referendum_ledger_invariant petitionApproved referendumFresh
    (by decide) [(0, true), (9, false)]).1

/-! Petition-stage eligibility: the source checks the full elector set. -/

/-- a Petition procedure whose sampled subset `[0]` is a strict subset of
the 7 electors: person 3 is an elector but NOT a sampled petitioner. -/
def petitionSampled : Procedure Petition :=
  { motion := motionSeven,
    stage := { voter_ids := [0], have_voted := [], approval_votes := 0 } }

/-- C1: evaluation at the failing input.  Person 3 is outside the sampled
subset (`voter_ids = [0]`) yet `register_approval_vote` succeeds and
increments the approval count, because the source tests membership in
`motion.electors` instead of `voter_ids`.  This contradicts the stated
eligibility rule, the `Petition` doc comment (the stage is shown to a
limited random set of individuals), and `into_referendum`, whose quorum is
computed over `voter_ids`. -/
theorem C1_nonsampled_elector_vote_accepted :
    3 ∉ petitionSampled.stage.voter_ids ∧
    3 ∈ petitionSampled.motion.electors ∧
    (register_approval_vote petitionSampled 3).1 = Except.ok () ∧
    (register_approval_vote petitionSampled 3).2.stage.approval_votes =
      petitionSampled.stage.approval_votes + 1 := by
  decide

/-- a second Petition fixture: three electors, sampled subset `[10, 11]`,
with petitioner 10 having already approved. -/
def petitionSampledTwo : Procedure Petition :=
  { motion := { title := "t", description := "d", developers := [10],
                electors := [10, 11, 12] },
    stage := { voter_ids := [10, 11], have_voted := [10],
               approval_votes := 1 } }

/-- C8: evaluation at the failing input for the universal eligibility
property.  In the Petition stage the eligible set is the sampled subset
`[10, 11]`; person 12 is outside it, yet registration succeeds and the
approval counter changes from 1 to 2 instead of failing with all counters
unchanged. -/
theorem C8_petition_ineligible_vote_counted :
    12 ∉ petitionSampledTwo.stage.voter_ids ∧
    (register_approval_vote petitionSampledTwo 12).1 = Except.ok () ∧
    (register_approval_vote petitionSampledTwo 12).2.stage.approval_votes
      = 2 ∧
    petitionSampledTwo.stage.approval_votes = 1 := by
  decide
